import Mathlib

/-!
Shallow embedding of the `nitro apply` reconciliation command
(`command/apply/apply.go`): the orchestrator (`RunE`), the orphan sweep
(`PostRunE`), and the proxy synchronization (`updateProxy`).

External effects (the docker engine, the backup subsystem, the gRPC proxy
endpoint, the OS) are modelled as oracles supplied through the `Engine` and
`RunEnv` structures; every function additionally returns the list of
observable calls it makes (`Ev`), so ordering and "never touched" claims can
be stated about the produced trace.
-/

namespace Nitro

/-- One observable external call made during a reconciliation run.
The constructors follow the order of the calls in the source. -/
inductive Ev
  | loadConfig
  | listNetworks
  | findProxy
  | startDb (name : String)
  | startMount (path : String)
  | svcDynamodb
  | svcMailhog
  | startSite (hostname : String)
  | proxyPing
  | proxyApply
  | hostsCheck
  | hostsWindows
  | hostsSudo
  | listContainers
  | listDatabases (cid : String)
  | backupDb (cid : String) (db : String)
  | stopC (cid : String)
  | removeC (cid : String)
deriving DecidableEq, Repr

/-- A runtime container record as observed through the engine's list call
(`types.Container`): identifier, names, and the labels the sweep reads. -/
structure Container where
  id : String
  names : List String
  labelProxy : String
  labelDatabaseEngine : String
  labelDatabaseCompatability : String
deriving DecidableEq, Repr

/-- The container-engine and backup collaborators used by `PostRunE`:
`docker.ContainerList`, `backup.Databases`, `backup.Perform`,
`docker.ContainerStop`, `docker.ContainerRemove`.  `Option String` is a Go
error value (`none` = nil). -/
structure Engine where
  listContainers : Except String (List Container)
  listDatabases : String → String → Except String (List String)
  performBackup : String → String → Option String
  stopContainer : String → Option String
  removeContainer : String → Option String

/-- Control flow of the container loop in `PostRunE`: fall through to the
next container, `break` out of the whole loop, or `return err`. -/
inductive LoopCtl
  | next
  | stopAll
  | fail (e : String)
deriving DecidableEq, Repr

/-- The `for _, db := range databases` loop of `PostRunE`: each database is
backed up in order; on the first `backup.Perform` error the loop `break`s,
so no later database of that container is attempted. -/
def backupDatabases (eng : Engine) (cid : String) : List String → List Ev
  | [] => []
  | db :: rest =>
    match eng.performBackup cid db with
    | none => Ev.backupDb cid db :: backupDatabases eng cid rest
    | some _ => [Ev.backupDb cid db]

/-- The body of the container loop in `PostRunE` for one unknown,
non-proxy container: optional database backup phase, then
`ContainerStop` and `ContainerRemove`.  A `backup.Databases` error `break`s
the whole container loop (`LoopCtl.stopAll`); a stop/remove error is
`return err` (`LoopCtl.fail`). -/
def processOrphan (eng : Engine) (c : Container) : LoopCtl × List Ev :=
  let pre : LoopCtl × List Ev :=
    if c.labelDatabaseEngine = "" then (.next, [])
    else
      match eng.listDatabases c.id c.labelDatabaseCompatability with
      | .error _ => (.stopAll, [Ev.listDatabases c.id])
      | .ok dbs => (.next, Ev.listDatabases c.id :: backupDatabases eng c.id dbs)
  match pre with
  | (.stopAll, t) => (.stopAll, t)
  | (.fail e, t) => (.fail e, t)
  | (.next, t) =>
    match eng.stopContainer c.id with
    | some e => (.fail e, t ++ [Ev.stopC c.id])
    | none =>
      match eng.removeContainer c.id with
      | some e => (.fail e, t ++ [Ev.stopC c.id, Ev.removeC c.id])
      | none => (.next, t ++ [Ev.stopC c.id, Ev.removeC c.id])

/-- The `for _, c := range containers` loop of `PostRunE`: containers whose
identifier is in `known` (`knownContainers`) are skipped, containers with a
non-empty proxy label are skipped, every other container is processed by
`processOrphan`. -/
def sweepLoop (eng : Engine) (known : List String) : List Container → Option String × List Ev
  | [] => (none, [])
  | c :: rest =>
    if known.contains c.id then sweepLoop eng known rest
    else if c.labelProxy = "" then
      match processOrphan eng c with
      | (.next, t) =>
        let r := sweepLoop eng known rest
        (r.fst, t ++ r.snd)
      | (.stopAll, t) => (none, t)
      | (.fail e, t) => (some e, t)
    else sweepLoop eng known rest

/-- `PostRunE` of the apply command: list the nitro-labelled containers
(an error becomes the fixed message `error getting a list of containers`),
return nil when there are none, otherwise run the sweep loop. -/
def postRun (eng : Engine) (known : List String) : Option String × List Ev :=
  match eng.listContainers with
  | .error _ => (some "error getting a list of containers", [Ev.listContainers])
  | .ok cs =>
    if cs.length = 0 then (none, [Ev.listContainers])
    else
      let r := sweepLoop eng known cs
      (r.fst, Ev.listContainers :: r.snd)

/-- A declared site of the configuration: hostname plus alias hostnames. -/
structure Site where
  hostname : String
  aliases : List String
deriving DecidableEq, Repr

/-- The slice of the loaded configuration that `RunE` reads: declared
databases, mounts, the two optional services, and the declared sites.
Databases and mounts are identified by the value handed to their
start-or-create collaborator. -/
structure Config where
  databases : List String
  mounts : List String
  dynamoDB : Bool
  mailhog : Bool
  sites : List Site
deriving DecidableEq, Repr

/-- The gRPC `protob.Site` payload entry built by `updateProxy`:
hostname, comma-joined aliases, and the fixed port 8080. -/
structure ProtobSite where
  hostname : String
  aliases : String
  port : Nat
deriving DecidableEq, Repr

/-- The gRPC `ApplyResponse`: an application-level failure flag and a
message. -/
structure ApplyResponse where
  error : Bool
  message : String
deriving DecidableEq, Repr

/-- Outcome of `proxycontainer.FindAndStart`: found, the sentinel
`ErrNoProxyContainer`, or some other error. -/
inductive ProxyFind
  | found
  | noProxy
  | failed (e : String)
deriving DecidableEq, Repr

/-- Outcome of a modelled run: `hang` when the proxy readiness loop never
succeeded within the modelling fuel, otherwise `done err` with the Go error
value returned (`none` = nil). -/
inductive RunOut
  | hang
  | done (err : Option String)
deriving DecidableEq, Repr

/-- The external collaborators of `RunE`, as oracles: configuration
loading, the docker network list, the proxy find-and-start helper, the
per-resource start-or-create collaborators, the nitrod endpoint
(`probe` gives the result of the n-th `Ping` call, `applyResult` the
result of `Apply`), and the hosts-file helpers.  `pingFuel` bounds the
readiness loop in the model only: the source loop is unbounded. -/
structure RunEnv where
  loadConfig : Except String Config
  listNetworks : Except String (List (String × String))
  findStartProxy : ProxyFind
  startDb : String → Except String String
  startMount : String → Except String String
  dynamodbService : Except String String
  mailhogService : Except String String
  startSite : String → Except String String
  probe : Nat → Bool
  applyResult : Except String ApplyResponse
  pingFuel : Nat
  goos : String
  editHostsEnv : String
  skipHostsFlag : Bool
  hostsIsUpdated : Except String Bool
  executablePath : Except String String
  windowsHostsRun : Except String Unit
  sudoHostsRun : Except String Unit

/-- `knownContainers[id] = true` on a map modelled as a duplicate-free
list of identifiers. -/
def addKnown (known : List String) (id : String) : List String :=
  if known.contains id then known else known ++ [id]

/-- The Go loop `for _, n := range networks` that picks the first network
named `nitro-network`; the zero value leaves `network.ID` empty. -/
def findNetworkId : List (String × String) → String
  | [] => ""
  | (name, nid) :: rest => if name = "nitro-network" then nid else findNetworkId rest

/-- One resource-class provisioning loop of `RunE` (databases, mounts or
sites): call the start-or-create collaborator for each spec in order,
record the returned identifier in the known set, and stop at the first
error, keeping the identifiers already recorded. -/
def provisionLoop (step : String → Except String String) (mk : String → Ev)
    (known : List String) : List String → Option String × List String × List Ev
  | [] => (none, known, [])
  | x :: rest =>
    match step x with
    | .error e => (some e, known, [mk x])
    | .ok id =>
      let r := provisionLoop step mk (addKnown known id) rest
      (r.fst, r.snd.fst, mk x :: r.snd.snd)

/-- An optional service check of `RunE` (dynamodb, mailhog): run only when
enabled in the configuration; a non-empty returned identifier is recorded. -/
def servicePhase (enabled : Bool) (svc : Except String String) (ev : Ev)
    (known : List String) : Option String × List String × List Ev :=
  if enabled then
    match svc with
    | .error e => (some e, known, [ev])
    | .ok id => (none, if id = "" then known else addKnown known id, [ev])
  else (none, known, [])

/-- The map `sites[s.Hostname] = ...` insertion: overwrite an existing key
or append a new binding. -/
def insertSite (m : List (String × ProtobSite)) (k : String) (v : ProtobSite) :
    List (String × ProtobSite) :=
  if m.any (fun p => p.fst = k) then m.map (fun p => if p.fst = k then (k, v) else p)
  else m ++ [(k, v)]

/-- The hostname-keyed `protob.Site` payload built at the top of
`updateProxy`. -/
def sitesPayload (sites : List Site) : List (String × ProtobSite) :=
  sites.foldl
    (fun m s => insertSite m s.hostname ⟨s.hostname, String.intercalate "," s.aliases, 8080⟩) []

/-- The readiness handshake `for { _, err := nitrod.Ping(...); if err == nil break }`:
re-issue the probe until one succeeds.  The source has no bound; `fuel`
only truncates the model, and exhausting it means the loop was still
spinning after `fuel` probes. -/
def pingLoop (probe : Nat → Bool) : Nat → Nat → Option Nat × List Ev
  | 0, _ => (none, [])
  | fuel + 1, k =>
    if probe k then (some k, [Ev.proxyPing])
    else
      let r := pingLoop probe fuel (k + 1)
      (r.fst, Ev.proxyPing :: r.snd)

/-- `updateProxy`: build the payload, return nil at once when it is empty,
otherwise run the readiness loop and issue the single `Apply` call; a
transport error is returned as-is and a response-level failure flag becomes
an error carrying the proxy's message. -/
def updateProxy (probe : Nat → Bool) (applyResult : Except String ApplyResponse)
    (fuel : Nat) (cfg : Config) : RunOut × List Ev :=
  let sites := sitesPayload cfg.sites
  if sites.length = 0 then (.done none, [])
  else
    match pingLoop probe fuel 0 with
    | (none, t) => (.hang, t)
    | (some _, t) =>
      match applyResult with
      | .error e => (.done (some e), t ++ [Ev.proxyApply])
      | .ok resp =>
        if resp.error then
          (.done (some ("unable to update the proxy, " ++ resp.message)), t ++ [Ev.proxyApply])
        else (.done none, t ++ [Ev.proxyApply])

/-- Every hostname of every declared site, hostname first then its aliases,
in site order, as built for the hosts-file step. -/
def allHostnames (sites : List Site) : List String :=
  (sites.map (fun s => s.hostname :: s.aliases)).flatten

/-- The hosts-file tail of `RunE`: skipped when opted out or when there is
no hostname; otherwise check whether the file is current and, when it is
not, run the elevated `nitro hosts` subprocess for the current platform.
On the windows branch the source ends with `if c.Run() != nil { return err }`
where `err` is the (nil) error left over from `os.Executable`, so a failing
subprocess still makes the step return nil. -/
def hostsPhase (env : RunEnv) (cfg : Config) : Option String × List Ev :=
  if env.editHostsEnv = "false" ∨ env.skipHostsFlag then (none, [])
  else if (allHostnames cfg.sites).length > 0 then
    match env.hostsIsUpdated with
    | .error e => (some e, [Ev.hostsCheck])
    | .ok true => (none, [Ev.hostsCheck])
    | .ok false =>
      match env.executablePath with
      | .error e => (some ("unable to locate the nitro path, " ++ e), [Ev.hostsCheck])
      | .ok _ =>
        if env.goos = "windows" then
          match env.windowsHostsRun with
          | .error _ => (none, [Ev.hostsCheck, Ev.hostsWindows])
          | .ok _ => (none, [Ev.hostsCheck, Ev.hostsWindows])
        else
          match env.sudoHostsRun with
          | .error e => (some e, [Ev.hostsCheck, Ev.hostsSudo])
          | .ok _ => (none, [Ev.hostsCheck, Ev.hostsSudo])
  else (none, [])

/-- The provisioning middle of `RunE`: databases, then mounts, then the two
optional services, then sites, each in configuration order, stopping at the
first error while keeping the identifiers already recorded in the known
set. -/
def provisionAll (env : RunEnv) (cfg : Config) (known0 : List String) :
    Option String × List String × List Ev :=
  match provisionLoop env.startDb Ev.startDb known0 cfg.databases with
  | (some e, k, t) => (some e, k, t)
  | (none, k1, t1) =>
    match provisionLoop env.startMount Ev.startMount k1 cfg.mounts with
    | (some e, k, t) => (some e, k, t1 ++ t)
    | (none, k2, t2) =>
      match servicePhase cfg.dynamoDB env.dynamodbService Ev.svcDynamodb k2 with
      | (some e, k, t) => (some e, k, t1 ++ t2 ++ t)
      | (none, k3, t3) =>
        match servicePhase cfg.mailhog env.mailhogService Ev.svcMailhog k3 with
        | (some e, k, t) => (some e, k, t1 ++ t2 ++ t3 ++ t)
        | (none, k4, t4) =>
          match provisionLoop env.startSite Ev.startSite k4 (cfg.sites.map Site.hostname) with
          | (some e, k, t) => (some e, k, t1 ++ t2 ++ t3 ++ t4 ++ t)
          | (none, k5, t5) => (none, k5, t1 ++ t2 ++ t3 ++ t4 ++ t5)

/-- `RunE` of the apply command: load the configuration, check the network
and the proxy (both missing-prerequisite cases return nil), provision
databases, mounts, services and sites while accumulating the known set,
synchronize the proxy, and finally touch the hosts file.  Returns the
outcome, the known set after the run, and the call trace. -/
def runE (env : RunEnv) (known0 : List String) : RunOut × List String × List Ev :=
  match env.loadConfig with
  | .error e => (.done (some e), known0, [Ev.loadConfig])
  | .ok cfg =>
    match env.listNetworks with
    | .error e =>
      (.done (some ("unable to list docker networks\n" ++ e)), known0,
        [Ev.loadConfig, Ev.listNetworks])
    | .ok nets =>
      if findNetworkId nets = "" then
        (.done none, known0, [Ev.loadConfig, Ev.listNetworks])
      else
        match env.findStartProxy with
        | .noProxy => (.done none, known0, [Ev.loadConfig, Ev.listNetworks, Ev.findProxy])
        | .failed e => (.done (some e), known0, [Ev.loadConfig, Ev.listNetworks, Ev.findProxy])
        | .found =>
          match provisionAll env cfg known0 with
          | (some e, k5, t5) =>
            (.done (some e), k5, [Ev.loadConfig, Ev.listNetworks, Ev.findProxy] ++ t5)
          | (none, k5, t5) =>
            match updateProxy env.probe env.applyResult env.pingFuel cfg with
            | (.hang, t6) =>
              (.hang, k5, ([Ev.loadConfig, Ev.listNetworks, Ev.findProxy] ++ t5) ++ t6)
            | (.done (some e), t6) =>
              (.done (some e), k5, ([Ev.loadConfig, Ev.listNetworks, Ev.findProxy] ++ t5) ++ t6)
            | (.done none, t6) =>
              match hostsPhase env cfg with
              | (some e, t7) =>
                (.done (some e), k5,
                  ([Ev.loadConfig, Ev.listNetworks, Ev.findProxy] ++ t5) ++ (t6 ++ t7))
              | (none, t7) =>
                (.done none, k5,
                  ([Ev.loadConfig, Ev.listNetworks, Ev.findProxy] ++ t5) ++ (t6 ++ t7))

/-- One invocation of `nitro apply`: cobra executes `RunE` and, only when
it returned nil, `PostRunE`.  The known set is the process-global
`knownContainers` map: it enters as `known0` and the updated value is
returned, because nothing in the source ever resets it. -/
def applyCommand (env : RunEnv) (eng : Engine) (known0 : List String) :
    RunOut × List String × List Ev :=
  match runE env known0 with
  | (.hang, k, t) => (.hang, k, t)
  | (.done (some e), k, t) => (.done (some e), k, t)
  | (.done none, k, t) =>
    let p := postRun eng k
    (.done p.fst, k, t ++ p.snd)

/-- The stage a call belongs to: 0 prerequisite checks and resource
provisioning, 1 proxy synchronization, 2 hosts-file step, 3 orphan sweep.
Used to state in which order the stages of a full run happen. -/
def phase : Ev → Nat
  | .loadConfig | .listNetworks | .findProxy => 0
  | .startDb _ | .startMount _ | .svcDynamodb | .svcMailhog | .startSite _ => 0
  | .proxyPing | .proxyApply => 1
  | .hostsCheck | .hostsWindows | .hostsSudo => 2
  | .listContainers | .listDatabases _ | .backupDb _ _ | .stopC _ | .removeC _ => 3

/-- The trace lists its calls in non-decreasing stage order. -/
def sortedPhase (t : List Ev) : Prop :=
  t.Pairwise (fun a b => phase a ≤ phase b)

/-- Every call of the trace belongs to stage `a`. -/
def allPhase (a : Nat) (t : List Ev) : Prop :=
  ∀ e ∈ t, phase e = a

/-- Index of the first occurrence of a call in a trace (length when absent). -/
def firstIdx (e : Ev) : List Ev → Nat
  | [] => 0
  | x :: rest => if x = e then 0 else firstIdx e rest + 1

/-- An empty configuration. -/
def cfg0 : Config := ⟨[], [], false, false, []⟩

/-- A baseline environment in which every collaborator succeeds. -/
def envBase : RunEnv where
  loadConfig := .ok cfg0
  listNetworks := .ok [("nitro-network", "n1")]
  findStartProxy := .found
  startDb := fun _ => .ok "d0"
  startMount := fun _ => .ok "m0"
  dynamodbService := .ok ""
  mailhogService := .ok ""
  startSite := fun _ => .ok "s0"
  probe := fun _ => true
  applyResult := .ok ⟨false, ""⟩
  pingFuel := 3
  goos := "linux"
  editHostsEnv := ""
  skipHostsFlag := false
  hostsIsUpdated := .ok false
  executablePath := .ok "/usr/local/bin/nitro"
  windowsHostsRun := .ok ()
  sudoHostsRun := .ok ()

/-- A declared container and an orphan, for the classification witness. -/
def cA : Container := ⟨"a", ["/a"], "", "", ""⟩

/-- The orphan companion of `cA`. -/
def cB : Container := ⟨"b", ["/b"], "", "", ""⟩

/-- Engine listing `cA` and `cB`, every operation succeeding. -/
def engIW : Engine :=
  ⟨.ok [cA, cB], fun _ _ => .ok [], fun _ _ => none, fun _ => none, fun _ => none⟩

/-- An orphaned database container holding two databases. -/
def cDB2 : Container := ⟨"cdb2", ["/mysql2"], "", "mysql", "mysql"⟩

/-- Engine for `cDB2` whose backup of the first database fails. -/
def engB2 : Engine :=
  ⟨.ok [cDB2], fun _ _ => .ok ["db1", "db2"],
    fun _ db => if db = "db1" then some "dump failed" else none,
    fun _ => none, fun _ => none⟩

/-- An orphaned database container whose database listing will fail. -/
def cDB3 : Container := ⟨"d3", ["/pg3"], "", "postgres", "postgres"⟩

/-- A second, plain orphan behind `cDB3` in the listing. -/
def cP3 : Container := ⟨"p3", ["/plain3"], "", "", ""⟩

/-- Engine for which listing the databases of any container fails. -/
def engL3 : Engine :=
  ⟨.ok [cDB3, cP3], fun _ _ => .error "connection refused",
    fun _ _ => none, fun _ => none, fun _ => none⟩

/-- An orphaned database container with a single database. -/
def cDB4 : Container := ⟨"d4", ["/mysql4"], "", "mysql", "mysql"⟩

/-- Engine for `cDB4` in which every backup fails but stop and remove
succeed. -/
def engB4 : Engine :=
  ⟨.ok [cDB4], fun _ _ => .ok ["main"], fun _ _ => some "dump failed",
    fun _ => none, fun _ => none⟩

/-- A configuration declaring one site. -/
def cfg5 : Config := ⟨[], [], false, false, [⟨"a.test", []⟩]⟩

/-- Environment for a full successful run over `cfg5`. -/
def env5 : RunEnv := { envBase with loadConfig := .ok cfg5, startSite := fun _ => .ok "s5" }

/-- An orphan present during the run over `cfg5`. -/
def c5orphan : Container := ⟨"o5", ["/old5"], "", "", ""⟩

/-- Engine listing only `c5orphan`, every operation succeeding. -/
def eng5 : Engine :=
  ⟨.ok [c5orphan], fun _ _ => .ok [], fun _ _ => none, fun _ => none, fun _ => none⟩

/-- Environment whose network list has no `nitro-network`. -/
def env6a : RunEnv := { envBase with listNetworks := .ok [] }

/-- Environment whose proxy container cannot be found. -/
def env6b : RunEnv := { envBase with findStartProxy := .noProxy }

/-- A configuration declaring one site, for the readiness-loop claim. -/
def cfg7 : Config := ⟨[], [], false, false, [⟨"b.test", []⟩]⟩

/-- First-run configuration declaring one database. -/
def cfg9a : Config := ⟨["maindb"], [], false, false, []⟩

/-- First-run environment: the database collaborator returns container
identifier `X`. -/
def env9a : RunEnv := { envBase with loadConfig := .ok cfg9a, startDb := fun _ => .ok "X" }

/-- First-run engine: no managed containers yet. -/
def eng9a : Engine :=
  ⟨.ok [], fun _ _ => .ok [], fun _ _ => none, fun _ => none, fun _ => none⟩

/-- Second-run environment: nothing is declared any more. -/
def env9b : RunEnv := { envBase with loadConfig := .ok cfg0 }

/-- The container created by the first run, still alive in the second. -/
def cX : Container := ⟨"X", ["/maindb"], "", "", ""⟩

/-- Second-run engine: it lists `cX`, and stop and remove succeed. -/
def eng9b : Engine :=
  ⟨.ok [cX], fun _ _ => .ok [], fun _ _ => none, fun _ => none, fun _ => none⟩

/-- A configuration with one site, for the windows hosts-file run. -/
def cfg10 : Config := ⟨[], [], false, false, [⟨"w.test", []⟩]⟩

/-- A windows environment whose hosts-editing subprocess exits nonzero. -/
def env10 : RunEnv :=
  { envBase with
    loadConfig := .ok cfg10
    goos := "windows"
    windowsHostsRun := .error "exit status 1"
    startSite := fun _ => .ok "s10" }

/-- Engine whose container listing fails. -/
def eng10fail : Engine :=
  ⟨.error "engine down", fun _ _ => .ok [], fun _ _ => none, fun _ => none, fun _ => none⟩

theorem backupDatabases_shape (eng : Engine) (cid : String) :
    ∀ dbs : List String, ∀ e ∈ backupDatabases eng cid dbs, ∃ d, e = Ev.backupDb cid d := by
  intro dbs
  induction dbs with
  | nil => intro e he; exact absurd he (List.not_mem_nil e)
  | cons db rest ih =>
    intro e he
    cases h : eng.performBackup cid db with
    | none =>
      simp only [backupDatabases, h] at he
      rcases List.mem_cons.mp he with rfl | hmem
      · exact ⟨db, rfl⟩
      · exact ih e hmem
    | some msg =>
      simp only [backupDatabases, h] at he
      rcases List.mem_cons.mp he with rfl | hmem
      · exact ⟨db, rfl⟩
      · exact absurd hmem (List.not_mem_nil e)

theorem processOrphan_shape (eng : Engine) (c : Container) :
    ∀ e ∈ (processOrphan eng c).2,
      e = Ev.listDatabases c.id ∨ (∃ d, e = Ev.backupDb c.id d) ∨
      e = Ev.stopC c.id ∨ e = Ev.removeC c.id := by
  intro e he
  unfold processOrphan at he
  by_cases hdb : c.labelDatabaseEngine = ""
  · simp only [hdb, if_true] at he
    cases hs : eng.stopContainer c.id with
    | some msg =>
      simp only [hs, List.nil_append] at he
      rcases List.mem_singleton.mp he with rfl
      exact Or.inr (Or.inr (Or.inl rfl))
    | none =>
      cases hr : eng.removeContainer c.id with
      | some msg =>
        simp only [hs, hr, List.nil_append] at he
        rcases List.mem_cons.mp he with rfl | he
        · exact Or.inr (Or.inr (Or.inl rfl))
        · rcases List.mem_singleton.mp he with rfl
          exact Or.inr (Or.inr (Or.inr rfl))
      | none =>
        simp only [hs, hr, List.nil_append] at he
        rcases List.mem_cons.mp he with rfl | he
        · exact Or.inr (Or.inr (Or.inl rfl))
        · rcases List.mem_singleton.mp he with rfl
          exact Or.inr (Or.inr (Or.inr rfl))
  · simp only [hdb, if_false] at he
    cases hl : eng.listDatabases c.id c.labelDatabaseCompatability with
    | error msg =>
      simp only [hl] at he
      rcases List.mem_singleton.mp he with rfl
      exact Or.inl rfl
    | ok dbs =>
      have tail : ∀ ts : List Ev, (∀ x ∈ ts, x = Ev.stopC c.id ∨ x = Ev.removeC c.id) →
          e ∈ (Ev.listDatabases c.id :: backupDatabases eng c.id dbs) ++ ts →
          e = Ev.listDatabases c.id ∨ (∃ d, e = Ev.backupDb c.id d) ∨
          e = Ev.stopC c.id ∨ e = Ev.removeC c.id := by
        intro ts hts hm
        rcases List.mem_append.mp hm with hm | hm
        · rcases List.mem_cons.mp hm with rfl | hm
          · exact Or.inl rfl
          · exact Or.inr (Or.inl (backupDatabases_shape eng c.id dbs e hm))
        · rcases hts e hm with rfl | rfl
          · exact Or.inr (Or.inr (Or.inl rfl))
          · exact Or.inr (Or.inr (Or.inr rfl))
      cases hs : eng.stopContainer c.id with
      | some msg =>
        simp only [hl, hs] at he
        exact tail [Ev.stopC c.id] (by intro x hx; rcases List.mem_singleton.mp hx; simp) he
      | none =>
        cases hr : eng.removeContainer c.id with
        | some msg =>
          simp only [hl, hs, hr] at he
          exact tail [Ev.stopC c.id, Ev.removeC c.id] (by intro x hx; simp at hx; tauto) he
        | none =>
          simp only [hl, hs, hr] at he
          exact tail [Ev.stopC c.id, Ev.removeC c.id] (by intro x hx; simp at hx; tauto) he

theorem processOrphan_touch (eng : Engine) (c : Container) (i : String)
    (h : Ev.stopC i ∈ (processOrphan eng c).2 ∨ Ev.removeC i ∈ (processOrphan eng c).2) :
    i = c.id := by
  rcases h with h | h <;>
    rcases processOrphan_shape eng c _ h with h1 | ⟨d, h1⟩ | h1 | h1 <;> simp_all

theorem sweepLoop_touch (eng : Engine) (known : List String) :
    ∀ cs : List Container, ∀ i : String,
      Ev.stopC i ∈ (sweepLoop eng known cs).2 ∨ Ev.removeC i ∈ (sweepLoop eng known cs).2 →
      ∃ c, c ∈ cs ∧ c.id = i ∧ known.contains c.id = false ∧ c.labelProxy = "" := by
  intro cs
  induction cs with
  | nil =>
    intro i h
    rcases h with h | h <;> exact absurd h (List.not_mem_nil _)
  | cons c rest ih =>
    intro i h
    cases hk : known.contains c.id with
    | true =>
      simp only [sweepLoop, hk, if_true] at h
      obtain ⟨c', hc', hrest⟩ := ih i h
      exact ⟨c', List.mem_cons_of_mem c hc', hrest⟩
    | false =>
      by_cases hp : c.labelProxy = ""
      · rcases hpo : processOrphan eng c with ⟨ctl, t⟩
        cases ctl with
        | next =>
          simp only [sweepLoop, hk, Bool.false_eq_true, if_false, hp, if_true, hpo,
            List.mem_append] at h
          rcases h with h | h
          · rcases h with h | h
            · have hid := processOrphan_touch eng c i (by rw [hpo]; exact Or.inl h)
              exact ⟨c, List.mem_cons_self c rest, hid.symm, hk, hp⟩
            · obtain ⟨c', hc', hrest⟩ := ih i (Or.inl h)
              exact ⟨c', List.mem_cons_of_mem c hc', hrest⟩
          · rcases h with h | h
            · have hid := processOrphan_touch eng c i (by rw [hpo]; exact Or.inr h)
              exact ⟨c, List.mem_cons_self c rest, hid.symm, hk, hp⟩
            · obtain ⟨c', hc', hrest⟩ := ih i (Or.inr h)
              exact ⟨c', List.mem_cons_of_mem c hc', hrest⟩
        | stopAll =>
          simp only [sweepLoop, hk, Bool.false_eq_true, if_false, hp, if_true, hpo] at h
          have hid := processOrphan_touch eng c i (by rw [hpo]; simpa using h)
          exact ⟨c, List.mem_cons_self c rest, hid.symm, hk, hp⟩
        | fail e =>
          simp only [sweepLoop, hk, Bool.false_eq_true, if_false, hp, if_true, hpo] at h
          have hid := processOrphan_touch eng c i (by rw [hpo]; simpa using h)
          exact ⟨c, List.mem_cons_self c rest, hid.symm, hk, hp⟩
      · simp only [sweepLoop, hk, Bool.false_eq_true, if_false, hp, if_false] at h
        obtain ⟨c', hc', hrest⟩ := ih i h
        exact ⟨c', List.mem_cons_of_mem c hc', hrest⟩

theorem processOrphan_success (eng : Engine) (c : Container)
    (hld : ∀ i m, ∃ l, eng.listDatabases i m = Except.ok l)
    (hstop : eng.stopContainer c.id = none)
    (hrem : eng.removeContainer c.id = none) :
    ∃ t, processOrphan eng c = (.next, t ++ [Ev.stopC c.id, Ev.removeC c.id]) := by
  by_cases hdb : c.labelDatabaseEngine = ""
  · exact ⟨[], by unfold processOrphan; simp [hdb, hstop, hrem]⟩
  · obtain ⟨l, hl⟩ := hld c.id c.labelDatabaseCompatability
    exact ⟨Ev.listDatabases c.id :: backupDatabases eng c.id l,
      by unfold processOrphan; simp [hdb, hl, hstop, hrem]⟩

theorem sweepLoop_removed (eng : Engine) (known : List String)
    (hld : ∀ i m, ∃ l, eng.listDatabases i m = Except.ok l)
    (hstop : ∀ i, eng.stopContainer i = none)
    (hrem : ∀ i, eng.removeContainer i = none) :
    ∀ cs : List Container, ∀ c ∈ cs, known.contains c.id = false → c.labelProxy = "" →
      List.Sublist [Ev.stopC c.id, Ev.removeC c.id] (sweepLoop eng known cs).2 := by
  intro cs
  induction cs with
  | nil => intro c hc; exact absurd hc (List.not_mem_nil c)
  | cons hd rest ih =>
    intro c hc hk hp
    rcases List.mem_cons.mp hc with rfl | hmem
    · obtain ⟨t, hpo⟩ := processOrphan_success eng c hld (hstop c.id) (hrem c.id)
      simp only [sweepLoop, hk, Bool.false_eq_true, if_false, hp, if_true, hpo]
      exact (List.sublist_append_right t _).trans (List.sublist_append_left _ _)
    · cases hkh : known.contains hd.id with
      | true =>
        simp only [sweepLoop, hkh, if_true]
        exact ih c hmem hk hp
      | false =>
        by_cases hph : hd.labelProxy = ""
        · obtain ⟨t, hpo⟩ := processOrphan_success eng hd hld (hstop hd.id) (hrem hd.id)
          simp only [sweepLoop, hkh, Bool.false_eq_true, if_false, hph, if_true, hpo]
          exact (ih c hmem hk hp).trans (List.sublist_append_right _ _)
        · simp only [sweepLoop, hkh, Bool.false_eq_true, if_false, hph, if_false]
          exact ih c hmem hk hp

/-- C1: over the containers carrying the management label, the sweep never
stops or removes a container whose identifier is in the known set, never
stops or removes a container carrying the proxy label, and — when listing
databases and the engine's stop and remove calls succeed — stops and then
removes every other container not in the known set. -/
theorem orphan_sweep_classification (eng : Engine) (known : List String)
    (cs : List Container) (hcs : eng.listContainers = Except.ok cs)
    (hnd : (cs.map Container.id).Nodup) :
    (∀ c ∈ cs, known.contains c.id = true →
      Ev.stopC c.id ∉ (postRun eng known).2 ∧ Ev.removeC c.id ∉ (postRun eng known).2) ∧
    (∀ c ∈ cs, c.labelProxy ≠ "" →
      Ev.stopC c.id ∉ (postRun eng known).2 ∧ Ev.removeC c.id ∉ (postRun eng known).2) ∧
    ((∀ i m, ∃ l, eng.listDatabases i m = Except.ok l) →
     (∀ i, eng.stopContainer i = none) → (∀ i, eng.removeContainer i = none) →
     ∀ c ∈ cs, known.contains c.id = false → c.labelProxy = "" →
       List.Sublist [Ev.stopC c.id, Ev.removeC c.id] (postRun eng known).2) := by
  unfold postRun
  rw [hcs]
  by_cases hlen : cs.length = 0
  · rcases List.length_eq_zero.mp hlen with rfl
    refine ⟨?_, ?_, ?_⟩
    · intro c hc
      exact absurd hc (List.not_mem_nil c)
    · intro c hc
      exact absurd hc (List.not_mem_nil c)
    · intro _ _ _ c hc
      exact absurd hc (List.not_mem_nil c)
  · simp only [hlen, if_false]
    refine ⟨?_, ?_, ?_⟩
    · intro c hc hk
      constructor <;> intro hmem <;> rcases List.mem_cons.mp hmem with heq | hmem
      · exact Ev.noConfusion heq
      · obtain ⟨c', _, hid, hfalse, _⟩ := sweepLoop_touch eng known cs c.id (Or.inl hmem)
        rw [hid] at hfalse
        rw [hk] at hfalse
        exact Bool.noConfusion hfalse
      · exact Ev.noConfusion heq
      · obtain ⟨c', _, hid, hfalse, _⟩ := sweepLoop_touch eng known cs c.id (Or.inr hmem)
        rw [hid] at hfalse
        rw [hk] at hfalse
        exact Bool.noConfusion hfalse
    · intro c hc hp
      constructor <;> intro hmem <;> rcases List.mem_cons.mp hmem with heq | hmem
      · exact Ev.noConfusion heq
      · obtain ⟨c', hc', hid, _, hp'⟩ := sweepLoop_touch eng known cs c.id (Or.inl hmem)
        exact hp (List.inj_on_of_nodup_map hnd hc hc' hid.symm ▸ hp')
      · exact Ev.noConfusion heq
      · obtain ⟨c', hc', hid, _, hp'⟩ := sweepLoop_touch eng known cs c.id (Or.inr hmem)
        exact hp (List.inj_on_of_nodup_map hnd hc hc' hid.symm ▸ hp')
    · intro hld hstop hrem c hc hk hp
      exact (sweepLoop_removed eng known hld hstop hrem cs c hc hk hp).cons Ev.listContainers

/-- Witness for C1: in a sweep over a declared container `a` and an orphan
`b`, `a` is never stopped while `b` is stopped and then removed. -/
theorem orphan_sweep_classification_witness :
    (Ev.stopC cA.id ∉ (postRun engIW ["a"]).2 ∧ Ev.removeC cA.id ∉ (postRun engIW ["a"]).2) ∧
    List.Sublist [Ev.stopC cB.id, Ev.removeC cB.id] (postRun engIW ["a"]).2 :=
  ⟨(orphan_sweep_classification engIW ["a"] [cA, cB] rfl (by decide)).1
      cA (by decide) (by decide),
    (orphan_sweep_classification engIW ["a"] [cA, cB] rfl (by decide)).2.2
      (fun _ _ => ⟨[], rfl⟩) (fun _ => rfl) (fun _ => rfl) cB (by decide) (by decide) (by decide)⟩

theorem backupDatabases_break (eng : Engine) (cid : String) (db e : String) (rest : List String)
    (hfail : eng.performBackup cid db = some e) :
    ∀ pre : List String, (∀ d ∈ pre, eng.performBackup cid d = none) →
      backupDatabases eng cid (pre ++ db :: rest) =
        pre.map (Ev.backupDb cid) ++ [Ev.backupDb cid db] := by
  intro pre
  induction pre with
  | nil => intro _; simp [backupDatabases, hfail]
  | cons d ds ih =>
    intro hpre
    have hd := hpre d (List.mem_cons_self d ds)
    simp only [List.cons_append, backupDatabases, hd, List.map_cons, List.append_eq]
    rw [ih (fun x hx => hpre x (List.mem_cons_of_mem d hx))]

/-- C2 (amended): during teardown of an orphaned database container, a
backup failure on one database stops the backup loop: the databases before
it are backed up, the failing one is attempted, none of the remaining
databases is attempted, and the container is still stopped and removed. -/
theorem backup_failure_stops_remaining (eng : Engine) (c : Container)
    (pre rest : List String) (db e : String)
    (hdb : c.labelDatabaseEngine ≠ "")
    (hld : eng.listDatabases c.id c.labelDatabaseCompatability = Except.ok (pre ++ db :: rest))
    (hpre : ∀ d ∈ pre, eng.performBackup c.id d = none)
    (hfail : eng.performBackup c.id db = some e)
    (hstop : eng.stopContainer c.id = none)
    (hrem : eng.removeContainer c.id = none) :
    processOrphan eng c =
      (.next, (Ev.listDatabases c.id ::
          (pre.map (Ev.backupDb c.id) ++ [Ev.backupDb c.id db])) ++
        [Ev.stopC c.id, Ev.removeC c.id]) := by
  unfold processOrphan
  simp [hdb, hld, hstop, hrem, backupDatabases_break eng c.id db e rest hfail pre hpre]

/-- Counterexample for C2: with two databases in container `cdb2` and a
backup failure on the first, the second database's backup is never
attempted. -/
theorem backup_second_database_not_attempted :
    Ev.backupDb "cdb2" "db1" ∈ (postRun engB2 []).2 ∧
    Ev.backupDb "cdb2" "db2" ∉ (postRun engB2 []).2 := by decide

/-- Witness for C2's amended theorem at the concrete engine `engB2`. -/
theorem backup_failure_stops_remaining_witness :
    processOrphan engB2 cDB2 =
      (.next, (Ev.listDatabases cDB2.id ::
          (List.map (Ev.backupDb cDB2.id) [] ++ [Ev.backupDb cDB2.id "db1"])) ++
        [Ev.stopC cDB2.id, Ev.removeC cDB2.id]) :=
  backup_failure_stops_remaining engB2 cDB2 [] ["db2"] "db1" "dump failed"
    (by decide) rfl (fun d hd => absurd hd (List.not_mem_nil d)) rfl rfl rfl

/-- C3: when listing the databases of the first orphaned database container
fails, the source breaks out of the whole container loop and returns nil:
the second orphan `p3` is never evaluated, stopped, or removed, so the sweep
is abandoned rather than continued. -/
theorem database_listing_failure_abandons_sweep :
    postRun engL3 [] = (none, [Ev.listContainers, Ev.listDatabases "d3"]) := by decide

/-- C4 (amended): a per-database backup failure does not abort the
container's teardown: the container is still stopped and then removed, and
the sweep continues over the remaining containers with the same outcome. -/
theorem backup_failure_does_not_block_teardown (eng : Engine) (known : List String)
    (c : Container) (cs : List Container) (dbs : List String) (db e : String)
    (hk : known.contains c.id = false) (hp : c.labelProxy = "")
    (hdb : c.labelDatabaseEngine ≠ "")
    (hld : eng.listDatabases c.id c.labelDatabaseCompatability = Except.ok dbs)
    (_hmem : db ∈ dbs) (_hfail : eng.performBackup c.id db = some e)
    (hstop : eng.stopContainer c.id = none) (hrem : eng.removeContainer c.id = none) :
    List.Sublist [Ev.stopC c.id, Ev.removeC c.id] (sweepLoop eng known (c :: cs)).2 ∧
    (sweepLoop eng known (c :: cs)).1 = (sweepLoop eng known cs).1 := by
  have hpo : processOrphan eng c =
      (.next, (Ev.listDatabases c.id :: backupDatabases eng c.id dbs) ++
        [Ev.stopC c.id, Ev.removeC c.id]) := by
    unfold processOrphan
    simp [hdb, hld, hstop, hrem]
  constructor
  · simp only [sweepLoop, hk, Bool.false_eq_true, if_false, hp, if_true, hpo]
    exact (List.sublist_append_right _ _).trans (List.sublist_append_left _ _)
  · simp only [sweepLoop, hk, Bool.false_eq_true, if_false, hp, if_true, hpo]

/-- Counterexample for C4: the backup of container `d4`'s only database
fails, yet the sweep still stops and removes `d4`. -/
theorem backup_failure_container_still_removed :
    engB4.performBackup "d4" "main" = some "dump failed" ∧
    Ev.backupDb "d4" "main" ∈ (postRun engB4 []).2 ∧
    Ev.stopC "d4" ∈ (postRun engB4 []).2 ∧ Ev.removeC "d4" ∈ (postRun engB4 []).2 := by decide

/-- Witness for C4's amended theorem at the concrete engine `engB4`. -/
theorem backup_failure_does_not_block_teardown_witness :
    List.Sublist [Ev.stopC cDB4.id, Ev.removeC cDB4.id] (sweepLoop engB4 [] [cDB4]).2 ∧
    (sweepLoop engB4 [] [cDB4]).1 = (sweepLoop engB4 [] []).1 :=
  backup_failure_does_not_block_teardown engB4 [] cDB4 [] ["main"] "main" "dump failed"
    rfl rfl (by decide) rfl (by decide) rfl rfl rfl

theorem runE_missing_prerequisites (env : RunEnv) (known0 : List String)
    (cfg : Config) (nets : List (String × String))
    (hc : env.loadConfig = Except.ok cfg) (hn : env.listNetworks = Except.ok nets) :
    (findNetworkId nets = "" →
      runE env known0 = (RunOut.done none, known0, [Ev.loadConfig, Ev.listNetworks])) ∧
    (findNetworkId nets ≠ "" → env.findStartProxy = ProxyFind.noProxy →
      runE env known0 =
        (RunOut.done none, known0, [Ev.loadConfig, Ev.listNetworks, Ev.findProxy])) := by
  constructor
  · intro hnet
    unfold runE
    rw [hc, hn]
    simp [hnet]
  · intro hnet hproxy
    unfold runE
    rw [hc, hn]
    simp [hnet, hproxy]

/-- C6 (amended): a missing `nitro-network` or a missing proxy container
makes `RunE` return nil immediately — none of `RunE`'s own later steps runs
(no provisioning, proxy synchronization or hosts-file step) and neither
missing prerequisite is reported as an error — but because the nil return
counts as success, cobra still runs the post-run orphan sweep afterwards,
over whatever the known set holds. -/
theorem missing_prerequisites_abort_then_sweep (env : RunEnv) (eng : Engine)
    (known0 : List String) (cfg : Config) (nets : List (String × String))
    (hc : env.loadConfig = Except.ok cfg) (hn : env.listNetworks = Except.ok nets) :
    (findNetworkId nets = "" →
      applyCommand env eng known0 =
        (RunOut.done (postRun eng known0).1, known0,
          [Ev.loadConfig, Ev.listNetworks] ++ (postRun eng known0).2)) ∧
    (findNetworkId nets ≠ "" → env.findStartProxy = ProxyFind.noProxy →
      applyCommand env eng known0 =
        (RunOut.done (postRun eng known0).1, known0,
          [Ev.loadConfig, Ev.listNetworks, Ev.findProxy] ++ (postRun eng known0).2)) := by
  have hrun := runE_missing_prerequisites env known0 cfg nets hc hn
  constructor
  · intro hnet
    unfold applyCommand
    rw [hrun.1 hnet]
  · intro hnet hproxy
    unfold applyCommand
    rw [hrun.2 hnet hproxy]

/-- Witness for C6's amended theorem: both abort cases at concrete
environments, with an engine whose sweep then finds the container `X`. -/
theorem missing_prerequisites_abort_then_sweep_witness :
    applyCommand env6a eng9b [] =
      (RunOut.done (postRun eng9b []).1, [],
        [Ev.loadConfig, Ev.listNetworks] ++ (postRun eng9b []).2) ∧
    applyCommand env6b eng9b [] =
      (RunOut.done (postRun eng9b []).1, [],
        [Ev.loadConfig, Ev.listNetworks, Ev.findProxy] ++ (postRun eng9b []).2) :=
  ⟨(missing_prerequisites_abort_then_sweep env6a eng9b [] cfg0 [] rfl rfl).1 rfl,
    (missing_prerequisites_abort_then_sweep env6b eng9b [] cfg0 [("nitro-network", "n1")]
      rfl rfl).2 (by decide) rfl⟩

/-- Counterexample for C6: after either successful nil abort (missing
network for `env6a`, missing proxy for `env6b`), the full command still
performs a later step: the post-run orphan sweep runs and stops and removes
the live container `X`. -/
theorem abort_still_performs_sweep :
    (applyCommand env6a eng9b []).1 = RunOut.done none ∧
    Ev.stopC "X" ∈ (applyCommand env6a eng9b []).2.2 ∧
    Ev.removeC "X" ∈ (applyCommand env6a eng9b []).2.2 ∧
    (applyCommand env6b eng9b []).1 = RunOut.done none ∧
    Ev.stopC "X" ∈ (applyCommand env6b eng9b []).2.2 ∧
    Ev.removeC "X" ∈ (applyCommand env6b eng9b []).2.2 := by decide

theorem pingLoop_all_fail (probe : Nat → Bool) (hp : ∀ k, probe k = false) :
    ∀ fuel k, (pingLoop probe fuel k).fst = none := by
  intro fuel
  induction fuel with
  | zero => intro k; rfl
  | succ n ih =>
    intro k
    simp [pingLoop, hp k, ih (k + 1)]

theorem insertSite_ne_nil (m : List (String × ProtobSite)) (k : String) (v : ProtobSite) :
    insertSite m k v ≠ [] := by
  unfold insertSite
  by_cases h : m.any (fun p => p.fst = k) = true
  · simp only [h, if_true]
    intro hm
    rw [List.map_eq_nil_iff] at hm
    subst hm
    simp at h
  · simp only [h, if_false]
    simp

theorem sitesPayload_ne_nil (sites : List Site) (h : sites ≠ []) : sitesPayload sites ≠ [] := by
  have hfold : ∀ (l : List Site) (m : List (String × ProtobSite)), m ≠ [] →
      l.foldl (fun m s =>
        insertSite m s.hostname ⟨s.hostname, String.intercalate "," s.aliases, 8080⟩) m ≠ [] := by
    intro l
    induction l with
    | nil =>
      intro m hm
      simpa using hm
    | cons x xs ih =>
      intro m _
      simp only [List.foldl_cons]
      exact ih _ (insertSite_ne_nil _ _ _)
  cases sites with
  | nil => exact absurd rfl h
  | cons s rest =>
    unfold sitesPayload
    simp only [List.foldl_cons]
    exact hfold rest _ (insertSite_ne_nil _ _ _)

/-- C7: the readiness handshake does not terminate under cancellation.  When
every probe call fails — which is what a cancelled context produces, since a
cancelled `Ping` returns an error — the loop is still spinning after any
number of probes: for every finite bound the synchronization has neither
returned nor erred. -/
theorem cancelled_probe_loops_forever (probe : Nat → Bool)
    (applyResult : Except String ApplyResponse) (fuel : Nat) (cfg : Config)
    (hp : ∀ k, probe k = false) (hs : cfg.sites ≠ []) :
    (updateProxy probe applyResult fuel cfg).fst = RunOut.hang := by
  unfold updateProxy
  have hne := sitesPayload_ne_nil cfg.sites hs
  rw [if_neg (by simpa [List.length_eq_zero] using hne)]
  rcases hr : pingLoop probe fuel 0 with ⟨r1, r2⟩
  have h1 := pingLoop_all_fail probe hp fuel 0
  rw [hr] at h1
  simp only at h1
  subst h1
  simp

/-- Witness for C7: with one declared site and a probe that always fails,
five iterations of the loop have produced no return. -/
theorem cancelled_probe_loops_forever_witness :
    (updateProxy (fun _ => false) (Except.ok ⟨false, ""⟩) 5 cfg7).fst = RunOut.hang :=
  cancelled_probe_loops_forever (fun _ => false) (Except.ok ⟨false, ""⟩) 5 cfg7
    (fun _ => rfl) (by decide)

/-- C8: with no declared sites, `updateProxy` returns nil at once and makes
no call at all to the proxy endpoint: its trace is empty, so neither the
liveness probe nor the apply operation is ever invoked. -/
theorem proxy_sync_empty_noop (probe : Nat → Bool)
    (applyResult : Except String ApplyResponse) (fuel : Nat) (cfg : Config)
    (h : cfg.sites = []) :
    updateProxy probe applyResult fuel cfg = (RunOut.done none, []) := by
  unfold updateProxy
  rw [h]
  rfl

/-- Witness for C8 at the empty configuration. -/
theorem proxy_sync_empty_noop_witness :
    updateProxy (fun _ => true) (Except.ok ⟨false, ""⟩) 3 cfg0 = (RunOut.done none, []) :=
  proxy_sync_empty_noop (fun _ => true) (Except.ok ⟨false, ""⟩) 3 cfg0 rfl

/-- C9: the known-container set survives between invocations in the same
process.  Run one (database `maindb` giving container `X`) ends with the
global set `["X"]`; run two declares nothing, yet with the carried-over set
its sweep never stops or removes `X`, although the very same second run
started from an empty set — what the claim asserts happens — would have
removed `X`. -/
theorem known_containers_leak_across_runs :
    (applyCommand env9a eng9a []).2.1 = ["X"] ∧
    (applyCommand env9b eng9b ["X"]).1 = RunOut.done none ∧
    Ev.stopC "X" ∉ (applyCommand env9b eng9b ["X"]).2.2 ∧
    Ev.removeC "X" ∉ (applyCommand env9b eng9b ["X"]).2.2 ∧
    Ev.removeC "X" ∈ (applyCommand env9b eng9b []).2.2 := by decide

/-- C10: on the windows branch a failing hosts subprocess is silently
swallowed: the source returns the leftover nil `err` of `os.Executable`, so
`RunE` returns nil although `windowsHostsRun` failed.  By contrast a failure
listing containers at the start of the sweep is surfaced as a non-nil
error. -/
theorem windows_hosts_failure_swallowed :
    env10.windowsHostsRun = Except.error "exit status 1" ∧
    (runE env10 []).1 = RunOut.done none ∧
    Ev.hostsWindows ∈ (runE env10 []).2.2 ∧
    postRun eng10fail [] = (some "error getting a list of containers", [Ev.listContainers]) := by
  refine ⟨rfl, ?_, ?_, ?_⟩ <;> decide

theorem allPhase_append {a : Nat} {t1 t2 : List Ev}
    (h1 : allPhase a t1) (h2 : allPhase a t2) : allPhase a (t1 ++ t2) := by
  intro e he
  rcases List.mem_append.mp he with he | he
  · exact h1 e he
  · exact h2 e he

theorem sortedPhase_of_allPhase {a : Nat} {t : List Ev} (h : allPhase a t) : sortedPhase t := by
  induction t with
  | nil => exact List.Pairwise.nil
  | cons x xs ih =>
    refine List.Pairwise.cons ?_ (ih fun e he => h e (List.mem_cons_of_mem x he))
    intro y hy
    rw [h x (List.mem_cons_self x xs), h y (List.mem_cons_of_mem x hy)]

theorem sortedPhase_append {t1 t2 : List Ev} (a : Nat)
    (h1 : sortedPhase t1) (h2 : sortedPhase t2)
    (b1 : ∀ e ∈ t1, phase e ≤ a) (b2 : ∀ e ∈ t2, a ≤ phase e) :
    sortedPhase (t1 ++ t2) := by
  unfold sortedPhase at *
  rw [List.pairwise_append]
  exact ⟨h1, h2, fun x hx y hy => le_trans (b1 x hx) (b2 y hy)⟩

theorem phase_glue0 {A : List Ev} (hA : allPhase 0 A) :
    sortedPhase A ∧ ∀ e ∈ A, phase e ≤ 2 :=
  ⟨sortedPhase_of_allPhase hA, fun e he => by have := hA e he; omega⟩

theorem phase_glue01 {A B : List Ev} (hA : allPhase 0 A) (hB : allPhase 1 B) :
    sortedPhase (A ++ B) ∧ ∀ e ∈ A ++ B, phase e ≤ 2 := by
  constructor
  · exact sortedPhase_append 0 (sortedPhase_of_allPhase hA) (sortedPhase_of_allPhase hB)
      (fun e he => le_of_eq (hA e he)) (fun e _ => Nat.zero_le _)
  · intro e he
    rcases List.mem_append.mp he with he | he
    · have := hA e he
      omega
    · have := hB e he
      omega

theorem phase_glue012 {A B C : List Ev} (hA : allPhase 0 A) (hB : allPhase 1 B)
    (hC : allPhase 2 C) :
    sortedPhase (A ++ (B ++ C)) ∧ ∀ e ∈ A ++ (B ++ C), phase e ≤ 2 := by
  have hBC : sortedPhase (B ++ C) :=
    sortedPhase_append 1 (sortedPhase_of_allPhase hB) (sortedPhase_of_allPhase hC)
      (fun e he => le_of_eq (hB e he)) (fun e he => by have := hC e he; omega)
  constructor
  · exact sortedPhase_append 0 (sortedPhase_of_allPhase hA) hBC
      (fun e he => le_of_eq (hA e he)) (fun e _ => Nat.zero_le _)
  · intro e he
    rcases List.mem_append.mp he with he | he
    · have := hA e he
      omega
    · rcases List.mem_append.mp he with he | he
      · have := hB e he
        omega
      · have := hC e he
        omega

theorem provisionLoop_phase (step : String → Except String String) (mk : String → Ev)
    (hmk : ∀ x, phase (mk x) = 0) :
    ∀ (xs known : List String), allPhase 0 (provisionLoop step mk known xs).2.2 := by
  intro xs
  induction xs with
  | nil =>
    intro known e he
    exact absurd he (List.not_mem_nil e)
  | cons x rest ih =>
    intro known e he
    cases hs : step x with
    | error msg =>
      simp only [provisionLoop, hs] at he
      rcases List.mem_singleton.mp he with rfl
      exact hmk x
    | ok idv =>
      simp only [provisionLoop, hs] at he
      rcases List.mem_cons.mp he with rfl | he
      · exact hmk x
      · exact ih _ e he

theorem servicePhase_phase (enabled : Bool) (svc : Except String String) (ev : Ev)
    (known : List String) (hev : phase ev = 0) :
    allPhase 0 (servicePhase enabled svc ev known).2.2 := by
  intro e he
  unfold servicePhase at he
  cases enabled with
  | false => simp at he
  | true =>
    cases svc with
    | error msg =>
      simp only [if_true] at he
      rcases List.mem_singleton.mp he with rfl
      exact hev
    | ok idv =>
      simp only [if_true] at he
      rcases List.mem_singleton.mp he with rfl
      exact hev

theorem provisionAll_phase (env : RunEnv) (cfg : Config) (known0 : List String) :
    allPhase 0 (provisionAll env cfg known0).2.2 := by
  unfold provisionAll
  rcases h1 : provisionLoop env.startDb Ev.startDb known0 cfg.databases with ⟨e1, k1, t1⟩
  have p1 : allPhase 0 t1 := by
    have h := provisionLoop_phase env.startDb Ev.startDb (fun _ => rfl) cfg.databases known0
    rwa [h1] at h
  cases e1 with
  | some e => exact p1
  | none =>
    dsimp only
    rcases h2 : provisionLoop env.startMount Ev.startMount k1 cfg.mounts with ⟨e2, k2, t2⟩
    have p2 : allPhase 0 t2 := by
      have h := provisionLoop_phase env.startMount Ev.startMount (fun _ => rfl) cfg.mounts k1
      rwa [h2] at h
    cases e2 with
    | some e => exact allPhase_append p1 p2
    | none =>
      dsimp only
      rcases h3 : servicePhase cfg.dynamoDB env.dynamodbService Ev.svcDynamodb k2 with ⟨e3, k3, t3⟩
      have p3 : allPhase 0 t3 := by
        have h := servicePhase_phase cfg.dynamoDB env.dynamodbService Ev.svcDynamodb k2 rfl
        rwa [h3] at h
      cases e3 with
      | some e => exact allPhase_append (allPhase_append p1 p2) p3
      | none =>
        dsimp only
        rcases h4 : servicePhase cfg.mailhog env.mailhogService Ev.svcMailhog k3 with ⟨e4, k4, t4⟩
        have p4 : allPhase 0 t4 := by
          have h := servicePhase_phase cfg.mailhog env.mailhogService Ev.svcMailhog k3 rfl
          rwa [h4] at h
        cases e4 with
        | some e => exact allPhase_append (allPhase_append (allPhase_append p1 p2) p3) p4
        | none =>
          dsimp only
          rcases h5 : provisionLoop env.startSite Ev.startSite k4 (cfg.sites.map Site.hostname)
            with ⟨e5, k5, t5⟩
          have p5 : allPhase 0 t5 := by
            have h := provisionLoop_phase env.startSite Ev.startSite (fun _ => rfl)
              (cfg.sites.map Site.hostname) k4
            rwa [h5] at h
          cases e5 with
          | some e =>
            exact allPhase_append
              (allPhase_append (allPhase_append (allPhase_append p1 p2) p3) p4) p5
          | none =>
            exact allPhase_append
              (allPhase_append (allPhase_append (allPhase_append p1 p2) p3) p4) p5

theorem pingLoop_phase (probe : Nat → Bool) :
    ∀ fuel k, allPhase 1 (pingLoop probe fuel k).2 := by
  intro fuel
  induction fuel with
  | zero =>
    intro k e he
    exact absurd he (List.not_mem_nil e)
  | succ n ih =>
    intro k e he
    by_cases hp : probe k = true
    · simp only [pingLoop, hp, if_true] at he
      rcases List.mem_singleton.mp he with rfl
      rfl
    · simp only [pingLoop, hp, if_false] at he
      rcases List.mem_cons.mp he with rfl | he
      · rfl
      · exact ih (k + 1) e he

theorem updateProxy_phase (probe : Nat → Bool) (ar : Except String ApplyResponse)
    (fuel : Nat) (cfg : Config) : allPhase 1 (updateProxy probe ar fuel cfg).2 := by
  intro e he
  unfold updateProxy at he
  by_cases h0 : (sitesPayload cfg.sites).length = 0
  · simp only [h0, if_true] at he
    exact absurd he (List.not_mem_nil e)
  · simp only [h0, if_false] at he
    rcases hr : pingLoop probe fuel 0 with ⟨r1, r2⟩
    rw [hr] at he
    have hping : allPhase 1 r2 := by
      have h := pingLoop_phase probe fuel 0
      rwa [hr] at h
    cases r1 with
    | none => exact hping e he
    | some k =>
      cases ar with
      | error msg =>
        rcases List.mem_append.mp he with he | he
        · exact hping e he
        · rcases List.mem_singleton.mp he with rfl
          rfl
      | ok resp =>
        cases hre : resp.error with
        | true =>
          simp only [hre, if_true] at he
          rcases List.mem_append.mp he with he | he
          · exact hping e he
          · rcases List.mem_singleton.mp he with rfl
            rfl
        | false =>
          simp only [hre, Bool.false_eq_true, if_false] at he
          rcases List.mem_append.mp he with he | he
          · exact hping e he
          · rcases List.mem_singleton.mp he with rfl
            rfl

theorem hostsPhase_phase (env : RunEnv) (cfg : Config) : allPhase 2 (hostsPhase env cfg).2 := by
  unfold hostsPhase
  repeat' split
  all_goals intro e he
  all_goals fin_cases he
  all_goals rfl

theorem backupDatabases_phase (eng : Engine) (cid : String) (dbs : List String) :
    allPhase 3 (backupDatabases eng cid dbs) := by
  intro e he
  rcases backupDatabases_shape eng cid dbs e he with ⟨d, rfl⟩
  rfl

theorem processOrphan_phase (eng : Engine) (c : Container) :
    allPhase 3 (processOrphan eng c).2 := by
  intro e he
  rcases processOrphan_shape eng c e he with rfl | ⟨d, rfl⟩ | rfl | rfl <;> rfl

theorem sweepLoop_phase (eng : Engine) (known : List String) :
    ∀ cs, allPhase 3 (sweepLoop eng known cs).2 := by
  intro cs
  induction cs with
  | nil =>
    intro e he
    exact absurd he (List.not_mem_nil e)
  | cons c rest ih =>
    intro e he
    cases hk : known.contains c.id with
    | true =>
      simp only [sweepLoop, hk, if_true] at he
      exact ih e he
    | false =>
      by_cases hp : c.labelProxy = ""
      · rcases hpo : processOrphan eng c with ⟨ctl, t⟩
        have hpt : allPhase 3 t := by
          have h := processOrphan_phase eng c
          rwa [hpo] at h
        cases ctl with
        | next =>
          simp only [sweepLoop, hk, Bool.false_eq_true, if_false, hp, if_true, hpo] at he
          rcases List.mem_append.mp he with he | he
          · exact hpt e he
          · exact ih e he
        | stopAll =>
          simp only [sweepLoop, hk, Bool.false_eq_true, if_false, hp, if_true, hpo] at he
          exact hpt e he
        | fail msg =>
          simp only [sweepLoop, hk, Bool.false_eq_true, if_false, hp, if_true, hpo] at he
          exact hpt e he
      · simp only [sweepLoop, hk, Bool.false_eq_true, if_false, hp, if_false] at he
        exact ih e he

theorem postRun_phase (eng : Engine) (known : List String) :
    allPhase 3 (postRun eng known).2 := by
  intro e he
  unfold postRun at he
  cases hc : eng.listContainers with
  | error msg =>
    simp only [hc] at he
    rcases List.mem_singleton.mp he with rfl
    rfl
  | ok cs =>
    simp only [hc] at he
    by_cases h0 : cs.length = 0
    · simp only [h0, if_true] at he
      rcases List.mem_singleton.mp he with rfl
      rfl
    · simp only [h0, if_false] at he
      rcases List.mem_cons.mp he with rfl | he
      · rfl
      · exact sweepLoop_phase eng known cs e he

theorem runE_phase (env : RunEnv) (known0 : List String) :
    sortedPhase (runE env known0).2.2 ∧ ∀ e ∈ (runE env known0).2.2, phase e ≤ 2 := by
  have h03 : allPhase 0 [Ev.loadConfig, Ev.listNetworks, Ev.findProxy] := by
    intro x hx
    fin_cases hx <;> rfl
  unfold runE
  cases hc : env.loadConfig with
  | error e =>
    exact phase_glue0 (by intro x hx; fin_cases hx; rfl)
  | ok cfg =>
    dsimp only
    cases hn : env.listNetworks with
    | error e =>
      exact phase_glue0 (by intro x hx; fin_cases hx <;> rfl)
    | ok nets =>
      dsimp only
      by_cases hnet : findNetworkId nets = ""
      · rw [if_pos hnet]
        exact phase_glue0 (by intro x hx; fin_cases hx <;> rfl)
      · rw [if_neg hnet]
        cases hprx : env.findStartProxy with
        | noProxy => exact phase_glue0 h03
        | failed e => exact phase_glue0 h03
        | found =>
          dsimp only
          rcases hpa : provisionAll env cfg known0 with ⟨e5, k5, t5⟩
          have p5 : allPhase 0 t5 := by
            have h := provisionAll_phase env cfg known0
            rwa [hpa] at h
          cases e5 with
          | some e => exact phase_glue0 (allPhase_append h03 p5)
          | none =>
            dsimp only
            rcases hup : updateProxy env.probe env.applyResult env.pingFuel cfg with ⟨ro, t6⟩
            have p6 : allPhase 1 t6 := by
              have h := updateProxy_phase env.probe env.applyResult env.pingFuel cfg
              rwa [hup] at h
            cases ro with
            | hang => exact phase_glue01 (allPhase_append h03 p5) p6
            | done oerr =>
              cases oerr with
              | some e => exact phase_glue01 (allPhase_append h03 p5) p6
              | none =>
                dsimp only
                rcases hh : hostsPhase env cfg with ⟨ho, t7⟩
                have p7 : allPhase 2 t7 := by
                  have h := hostsPhase_phase env cfg
                  rwa [hh] at h
                cases ho with
                | some e => exact phase_glue012 (allPhase_append h03 p5) p6 p7
                | none => exact phase_glue012 (allPhase_append h03 p5) p6 p7

/-- C5 (amended): in every full invocation the stages happen in the order
prerequisite checks and provisioning (0), proxy synchronization (1),
hosts-file step (2), orphan sweep (3): along the trace the stage number
never decreases.  In particular proxy synchronization comes before the
hosts-file merge, but the orphan sweep runs last, in the post-run hook,
after the hosts file is touched — not before it, as claimed. -/
theorem reconcile_stage_order (env : RunEnv) (eng : Engine) (known0 : List String) :
    sortedPhase (applyCommand env eng known0).2.2 := by
  unfold applyCommand
  rcases hr : runE env known0 with ⟨ro, k, t⟩
  have h1 := runE_phase env known0
  rw [hr] at h1
  cases ro with
  | hang => exact h1.1
  | done oerr =>
    cases oerr with
    | some e => exact h1.1
    | none =>
      have h3 : allPhase 3 (postRun eng k).2 := postRun_phase eng k
      exact sortedPhase_append 3 h1.1 (sortedPhase_of_allPhase h3)
        (fun e he => le_trans (h1.2 e he) (by omega))
        (fun e he => le_of_eq (h3 e he).symm)

/-- Counterexample for C5: in a concrete full run the hosts file is
modified (`hostsSudo`) strictly before the orphan sweep stops the orphan
`o5`, refuting that the orphan sweep is performed before the hosts file is
touched. -/
theorem hosts_merge_precedes_sweep :
    Ev.hostsSudo ∈ (applyCommand env5 eng5 []).2.2 ∧
    Ev.stopC "o5" ∈ (applyCommand env5 eng5 []).2.2 ∧
    firstIdx Ev.hostsSudo (applyCommand env5 eng5 []).2.2 <
      firstIdx (Ev.stopC "o5") (applyCommand env5 eng5 []).2.2 := by decide

end Nitro
